import Mathlib

/-!
Verification development for the multi-trial execution engine and
result-aggregation pipeline of the opencode-evals repository
(src/runner.ts, src/sandbox.ts, src/evaluators/).

Modelling conventions:
* JavaScript numbers are modelled as exact rationals; the invariants and
  metric inequalities proved here are the exact counterparts of the
  floating-point statements.
* The external collaborators of the runner (sandbox provider, agent
  subprocess, graders; spec section 2) are modelled as deterministic
  oracles indexed by trial number or example: the runner only composes
  their results.
* Concurrency is modelled by the order in which pool workers complete
  their claimed items: a parallel run is a fold of index-addressed writes
  into a pre-sized results array, parameterised by the completion order.
  A drained worker pool corresponds to the completion order being a
  permutation of the claimed indices.
* JavaScript exceptions are modelled with Except / Option (none = throw).
-/

namespace OpencodeEvals

/-- Captured outputs of one trial (runner.ts, TrialResult.outputs in
types.ts).  Events and tool calls are opaque payloads for the runner. -/
structure TrialOutputs where
  events : List String
  final_files : List (String × String)
  tool_calls : List String
  exit_code : Int
  tokens_used : ℚ
  cost : ℚ
  duration_ms : ℚ
deriving Repr, DecidableEq

/-- Feedback record as declared in types.ts: all of normalized_score,
weight and weighted_score are required fields.  The score field is
number-or-null in the source, hence Option. -/
structure Feedback where
  key : String
  score : Option ℚ
  normalized_score : ℚ
  weight : ℚ
  weighted_score : ℚ
  passed : Bool
  comment : Option String
  rubric_level : Option String
deriving Repr, DecidableEq

/-- Result of a single trial (types.ts TrialResult). -/
structure TrialResult where
  trial_number : Nat
  outputs : TrialOutputs
  feedback : List Feedback
  passed : Bool
  transcript_path : Option String
deriving Repr, DecidableEq

/-- Inputs of one dataset example (types.ts Example.inputs). -/
structure ExampleInputs where
  query : String
  files : List (String × String)
deriving Repr, DecidableEq

/-- One dataset example (types.ts Example; metadata and reference outputs
are not consumed by the aggregation pipeline). -/
structure DatasetExample where
  id : String
  inputs : ExampleInputs
deriving Repr, DecidableEq

/-- Example-level result (types.ts ExampleResult). -/
structure ExampleResult where
  example_id : String
  inputs : ExampleInputs
  trials : List TrialResult
  outputs : TrialOutputs
  feedback : List Feedback
  passed : Bool
  trials_passed : Nat
  trials_total : Nat
deriving Repr, DecidableEq

/-- Multi-trial metrics (types.ts TrialMetrics).  The source also stores
pass_rate_std_dev = sqrt(variance); the square root of a rational is
irrational in general, so this model keeps the (rational) variance from
which the source takes the square root. -/
structure TrialMetrics where
  trials_per_example : Nat
  pass_at_k : ℚ
  pass_all_k : ℚ
  avg_trial_pass_rate : ℚ
  pass_rate_variance : ℚ
  inconsistent_examples : Nat
  consistency_rate : ℚ
deriving Repr, DecidableEq

/-- Experiment-level summary (types.ts ExperimentSummary). -/
structure ExperimentSummary where
  total_examples : Nat
  passed : Nat
  failed : Nat
  pass_rate : ℚ
  avg_score : ℚ
  total_tokens : ℚ
  total_cost : ℚ
  total_duration_ms : ℚ
  trial_metrics : Option TrialMetrics
deriving Repr, DecidableEq

/-- Pass criterion: any = pass@k, all = pass^k (runner.ts passCriteria). -/
inductive PassCriteria where
  | any
  | all
deriving Repr, DecidableEq

/-- Error-handling policy (types.ts ErrorHandlingConfig.on_error).  The
source strings are "continue", "abort" and "retry"; cont stands for
"continue", which is a reserved word in Lean. -/
inductive ErrorPolicy where
  | cont
  | abort
  | retryPolicy
deriving Repr, DecidableEq

/-- Trial executor (runner.ts runSingleTrial, lines 462-548).  Sandbox
creation, the agent subprocess and the grader calls are external
collaborators; capture yields the assembled outputs record and grade the
concatenated grader feedback for a given trial number.  The executor
derives passed as the conjunction of all feedback passed flags. -/
def runSingleTrial (capture : Nat → TrialOutputs) (grade : Nat → List Feedback)
    (trialNumber : Nat) : TrialResult :=
  let feedback := grade trialNumber
  { trial_number := trialNumber
    outputs := capture trialNumber
    feedback := feedback
    passed := feedback.all (fun f => f.passed)
    transcript_path := none }

/-- Transcript persistence step (runner.ts saveTranscript call sites):
when enabled, the transcript location is recorded on the trial result
before it is placed in the result list. -/
def withTranscript (save : Option (Nat → String)) (trialNum : Nat)
    (tr : TrialResult) : TrialResult :=
  match save with
  | some pathFor => { tr with transcript_path := some (pathFor trialNum) }
  | none => tr

/-- Sequential trial loop of runExampleWithTrials (runner.ts lines
398-429): trial numbers 1..numTrials are executed in order and appended. -/
def runTrialsSequential (capture : Nat → TrialOutputs) (grade : Nat → List Feedback)
    (save : Option (Nat → String)) (numTrials : Nat) : List TrialResult :=
  (List.range numTrials).map
    (fun i => withTranscript save (i + 1) (runSingleTrial capture grade (i + 1)))

/-- Parallel trial pool (runner.ts runTrialsParallel, lines 315-368).
Workers claim indices 0,1,... from a shared counter; the worker that
claimed index idx runs trial number idx+1 and writes the result into the
pre-sized array at position idx.  The parameter order is the sequence of
claimed indices in completion order; a drained pool makes it a
permutation of range numTrials. -/
def runTrialsParallel (capture : Nat → TrialOutputs) (grade : Nat → List Feedback)
    (save : Option (Nat → String)) (numTrials : Nat) (order : List Nat) :
    List (Option TrialResult) :=
  order.foldl
    (fun results idx =>
      results.set idx
        (some (withTranscript save (idx + 1) (runSingleTrial capture grade (idx + 1)))))
    (List.replicate numTrials none)

/-- Concatenation of the feedback of all trials in encounter order (the nested
loops of aggregateTrialFeedback, runner.ts lines 584-591). -/
def allTrialFeedback (trials : List TrialResult) : List Feedback :=
  (trials.map (fun t => t.feedback)).flatten

/-- First-occurrence key order of a JavaScript Map built by insertion
(runner.ts feedbackByKey). -/
def dedupKeysFirst : List String → List String
  | [] => []
  | k :: rest => k :: dedupKeysFirst (rest.filter (fun x => x ≠ k))
termination_by l => l.length
decreasing_by
  simp only [List.length_cons]
  exact Nat.lt_succ_of_le (List.length_filter_le _ _)

/-- Minimum of a score list (Math.min spread, on a nonempty list). -/
def listMin : List ℚ → ℚ
  | [] => 0
  | s :: rest => rest.foldl min s

/-- Maximum of a score list (Math.max spread, on a nonempty list). -/
def listMax : List ℚ → ℚ
  | [] => 0
  | s :: rest => rest.foldl max s

/-- Cross-trial summary comment (runner.ts line 611; the source renders
the numbers with toFixed(2), string formatting is abstracted). -/
def summaryComment (avgScore : ℚ) (passCount total : Nat)
    (minScore maxScore : ℚ) : String :=
  "Avg: " ++ toString avgScore ++ " (" ++ toString passCount ++ "/"
    ++ toString total ++ " passed, range: " ++ toString minScore ++ "-"
    ++ toString maxScore ++ ")"

/-- Cross-trial feedback aggregation (runner.ts aggregateTrialFeedback,
lines 579-617).  Zero trials give an empty list, one trial passes its
feedback through; otherwise feedback is grouped by key in first-occurrence
order and averaged.  In the multi-trial branch trials.length is at least
two, so the comment is always the cross-trial summary. -/
def aggregateTrialFeedback (trials : List TrialResult) : List Feedback :=
  match trials with
  | [] => []
  | [t] => t.feedback
  | _ =>
    let alls := allTrialFeedback trials
    let keys := dedupKeysFirst (alls.map (fun f => f.key))
    keys.map (fun key =>
      let feedbacks := alls.filter (fun f => f.key == key)
      let scores := feedbacks.map (fun f => f.normalized_score)
      let avgScore := scores.sum / (scores.length : ℚ)
      let minScore := listMin scores
      let maxScore := listMax scores
      let passCount := (feedbacks.filter (fun f => f.passed)).length
      let avgWeight := (feedbacks.map (fun f => f.weight)).sum / (feedbacks.length : ℚ)
      { key := key
        score := some avgScore
        normalized_score := avgScore
        weight := avgWeight
        weighted_score := avgScore * avgWeight
        passed := decide (0 < passCount)
        comment := some (summaryComment avgScore passCount feedbacks.length minScore maxScore)
        rubric_level := none })

/-- Aggregation tail of runExampleWithTrials (runner.ts lines 431-457):
counts passed trials, applies the pass criterion, picks the
representative trial as the first passing trial or trials[0], and builds
the ExampleResult.  On an empty trial list the source dereferences the
undefined trials[0] and throws a TypeError, modelled by none. -/
def aggregateExampleResult (ex : DatasetExample) (trials : List TrialResult)
    (passCriteria : PassCriteria) : Option ExampleResult :=
  let trials_passed := (trials.filter (fun t => t.passed)).length
  let trials_total := trials.length
  let passed : Bool :=
    match passCriteria with
    | PassCriteria.any => decide (0 < trials_passed)
    | PassCriteria.all => trials_passed == trials_total
  match (trials.find? (fun t => t.passed)).orElse (fun _ => trials.head?) with
  | none => none
  | some representativeTrial =>
    some { example_id := ex.id
           inputs := ex.inputs
           trials := trials
           outputs := representativeTrial.outputs
           feedback := aggregateTrialFeedback trials
           passed := passed
           trials_passed := trials_passed
           trials_total := trials_total }

/-- Collects a fully written parallel results array; a hole (an index no
worker completed) is a failure.  With a drained pool every slot is set. -/
def collectTrials : List (Option TrialResult) → Option (List TrialResult)
  | [] => some []
  | none :: _ => none
  | some t :: rest => (collectTrials rest).map (fun ts => t :: ts)

/-- Full runExampleWithTrials (runner.ts lines 373-457): obtain the trial
list in the requested mode, then aggregate. -/
def runExampleWithTrials (capture : Nat → TrialOutputs) (grade : Nat → List Feedback)
    (save : Option (Nat → String)) (ex : DatasetExample) (numTrials : Nat)
    (passCriteria : PassCriteria) (parallelTrials : Bool) (order : List Nat) :
    Option ExampleResult :=
  let trials? : Option (List TrialResult) :=
    if parallelTrials then
      collectTrials (runTrialsParallel capture grade save numTrials order)
    else
      some (runTrialsSequential capture grade save numTrials)
  match trials? with
  | none => none
  | some trials => aggregateExampleResult ex trials passCriteria

/-- Outputs record of the synthetic error trial (runner.ts
createErrorResult, lines 270-278). -/
def syntheticErrorOutputs : TrialOutputs :=
  { events := []
    final_files := []
    tool_calls := []
    exit_code := -1
    tokens_used := 0
    cost := 0
    duration_ms := 0 }

/-- Single Feedback entry of the synthetic error trial (runner.ts lines
280-289): key "error", score 0, passed false, comment = stringified
error. -/
def errorFeedback (error : String) : Feedback :=
  { key := "error"
    score := some 0
    normalized_score := 0
    weight := 1
    weighted_score := 0
    passed := false
    comment := some error
    rubric_level := none }

/-- Synthetic failed trial for an errored example (runner.ts emptyTrial,
lines 268-291). -/
def emptyTrial (error : String) : TrialResult :=
  { trial_number := 1
    outputs := syntheticErrorOutputs
    feedback := [errorFeedback error]
    passed := false
    transcript_path := none }

/-- Synthetic ExampleResult for an errored example (runner.ts lines
293-302). -/
def syntheticErrorResult (ex : DatasetExample) (error : String) : ExampleResult :=
  { example_id := ex.id
    inputs := ex.inputs
    trials := [emptyTrial error]
    outputs := syntheticErrorOutputs
    feedback := [errorFeedback error]
    passed := false
    trials_passed := 0
    trials_total := 1 }

/-- createErrorResult (runner.ts lines 257-303): null (none) under the
abort policy, otherwise the synthetic ExampleResult.  The retry policy
takes the same branch as continue. -/
def createErrorResult (ex : DatasetExample) (error : String)
    (policy : ErrorPolicy) : Option ExampleResult :=
  match policy with
  | ErrorPolicy.abort => none
  | _ => some (syntheticErrorResult ex error)

/-- Value an example contributes under a non-abort policy: the work
result, or on a thrown error the synthetic error result (the catch
branches at runner.ts lines 168-175 and 227-235). -/
def exampleOutcome (work : DatasetExample → Except String ExampleResult)
    (ex : DatasetExample) : ExampleResult :=
  match work ex with
  | Except.ok r => r
  | Except.error err => syntheticErrorResult ex err

/-- Sequential example scheduler (runner.ts runExamplesSequential, lines
134-179): examples run in dataset order; a thrown error is converted by
createErrorResult, or rethrown when it returns null (abort). -/
def runExamplesSequential (work : DatasetExample → Except String ExampleResult)
    (policy : ErrorPolicy) : List DatasetExample → Except String (List ExampleResult)
  | [] => Except.ok []
  | ex :: rest =>
    match work ex with
    | Except.ok r =>
      (runExamplesSequential work policy rest).map (fun rs => r :: rs)
    | Except.error err =>
      match createErrorResult ex err policy with
      | none => Except.error err
      | some er => (runExamplesSequential work policy rest).map (fun rs => er :: rs)

/-- Parallel example pool (runner.ts runExamplesParallel, lines 184-251)
under the continue policy: workers pull (example, index) items from a
shared queue and write the outcome into the pre-sized array at the
original index.  The parameter order is the sequence of claimed indices
in completion order; the out-of-range branch is unreachable for claimed
items and models that nothing is written. -/
def runExamplesParallel (work : DatasetExample → Except String ExampleResult)
    (examples : List DatasetExample) (order : List Nat) : List (Option ExampleResult) :=
  order.foldl
    (fun results idx =>
      match examples[idx]? with
      | some ex => results.set idx (some (exampleOutcome work ex))
      | none => results)
    (List.replicate examples.length none)

/-- Multi-trial metrics (runner.ts calculateTrialMetrics, lines 666-714).
The empty input returns the all-zero record; otherwise the metric
fractions are counts over results divided by results.length. -/
def calculateTrialMetrics (results : List ExampleResult) : TrialMetrics :=
  match results with
  | [] =>
    { trials_per_example := 0
      pass_at_k := 0
      pass_all_k := 0
      avg_trial_pass_rate := 0
      pass_rate_variance := 0
      inconsistent_examples := 0
      consistency_rate := 0 }
  | r0 :: _ =>
    let n : ℚ := (results.length : ℚ)
    let pass_at_k := ((results.filter (fun r => 0 < r.trials_passed)).length : ℚ) / n
    let pass_all_k := ((results.filter (fun r => r.trials_passed == r.trials_total)).length : ℚ) / n
    let passRates := results.map (fun r => (r.trials_passed : ℚ) / (r.trials_total : ℚ))
    let avg_trial_pass_rate := passRates.sum / n
    let variance := (passRates.map (fun rate => (rate - avg_trial_pass_rate) ^ 2)).sum / n
    let inconsistent_examples :=
      (results.filter (fun r => 0 < r.trials_passed && r.trials_passed < r.trials_total)).length
    { trials_per_example := r0.trials_total
      pass_at_k := pass_at_k
      pass_all_k := pass_all_k
      avg_trial_pass_rate := avg_trial_pass_rate
      pass_rate_variance := variance
      inconsistent_examples := inconsistent_examples
      consistency_rate := 1 - (inconsistent_examples : ℚ) / n }

/-- Sum of a trial-level numeric field over all trials of all results
(the nested reduce calls of calculateSummary, runner.ts lines 631-642). -/
def sumOverTrials (results : List ExampleResult) (field : TrialOutputs → ℚ) : ℚ :=
  (results.map (fun r => (r.trials.map (fun t => field t.outputs)).sum)).sum

/-- Experiment summarizer (runner.ts calculateSummary, lines 619-661).
JavaScript adds a null score as 0, hence getD 0 in the avg_score sum. -/
def calculateSummary (results : List ExampleResult) : ExperimentSummary :=
  let total_examples := results.length
  let passed := (results.filter (fun r => r.passed)).length
  let failed := total_examples - passed
  let allFeedback := (results.map (fun r => r.feedback)).flatten
  let avg_score :=
    if 0 < allFeedback.length then
      (allFeedback.map (fun f => f.score.getD 0)).sum / (allFeedback.length : ℚ)
    else 0
  let hasMultipleTrials := results.any (fun r => 1 < r.trials_total)
  { total_examples := total_examples
    passed := passed
    failed := failed
    pass_rate := if 0 < total_examples then (passed : ℚ) / (total_examples : ℚ) else 0
    avg_score := avg_score
    total_tokens := sumOverTrials results (fun o => o.tokens_used)
    total_cost := sumOverTrials results (fun o => o.cost)
    total_duration_ms := sumOverTrials results (fun o => o.duration_ms)
    trial_metrics := if hasMultipleTrials then some (calculateTrialMetrics results) else none }

/-!
Feedback objects as the evaluator files literally construct them.  The
current types.ts declares normalized_score, weight and weighted_score as
required fields of Feedback, but the object literals returned by
evaluators/code.ts (evaluateFileExists and friends) and by
evaluators/llm-judge.ts (evaluateCriterion) contain only key, score,
passed and comment.  A JsFeedback records which fields the constructed
object actually carries (none = the property is absent / undefined).
-/

/-- Feedback object as constructed in the evaluator sources; absent
properties are none. -/
structure JsFeedback where
  key : String
  score : ℚ
  normalized_score : Option ℚ
  weight : Option ℚ
  weighted_score : Option ℚ
  passed : Bool
  comment : Option String
deriving Repr, DecidableEq

/-- The spec invariant weighted_score == normalized_score * weight read
over a JavaScript object: if any operand property is absent the loose
comparison is undefined == NaN (or undefined == number), which is false. -/
def feedbackInvariantJS (f : JsFeedback) : Bool :=
  match f.weighted_score, f.normalized_score, f.weight with
  | some ws, some ns, some w => ws == ns * w
  | _, _, _ => false

/-- The same invariant over the fully populated Feedback record. -/
def feedbackInvariant (f : Feedback) : Bool :=
  f.weighted_score == f.normalized_score * f.weight

/-- Feedback constructed by evaluateFileExists (evaluators/code.ts lines
74-97); the external filesystem check is the boolean fileReadable. -/
def evaluateFileExists (path : String) (fileReadable : Bool) : JsFeedback :=
  { key := "file_exists:" ++ path
    score := if fileReadable then 1 else 0
    normalized_score := none
    weight := none
    weighted_score := none
    passed := fileReadable
    comment := some (if fileReadable then "File exists: " ++ path
                     else "File not found: " ++ path) }

/-- Feedback constructed by evaluateCriterion (evaluators/llm-judge.ts
lines 44-128) from the parsed judge response: a numeric score is kept,
otherwise passed is coerced to 1 or 0; on a judge error score 0, passed
false.  Either way the three weighting fields are absent. -/
def evaluateCriterion (criterion : String) (parsedScore : Option ℚ)
    (parsedPassed : Bool) (comment : Option String) : JsFeedback :=
  { key := "llm_judge:" ++ criterion.take 50
    score := match parsedScore with
             | some s => s
             | none => if parsedPassed then 1 else 0
    normalized_score := none
    weight := none
    weighted_score := none
    passed := parsedPassed
    comment := comment }

/-- Feedback constructed by the createFeedback helper that the later
evaluator revision routes every assertion through (the helper shown at
evaluators/llm-judge.ts lines 141-157): weighting fields populated with
weighted_score = score * weight and normalized_score = score. -/
def createFeedback (key : String) (score weight : ℚ) (passed : Bool)
    (comment : Option String) : JsFeedback :=
  { key := key
    score := score
    normalized_score := some score
    weight := some weight
    weighted_score := some (score * weight)
    passed := passed
    comment := comment }

/-!
Final-files snapshot (sandbox.ts readDirectoryFiles, lines 108-138).
The directory tree is modelled as a finite tree of named entries; a file
carries some decoded content, or none when it cannot be read as UTF-8.
The Record<path, content> is modelled as an association list in insertion
order.
-/

/-- One directory entry: a file with its UTF-8 decoding (none when the
read as utf-8 fails) or a subdirectory. -/
inductive FsEntry where
  | file (name : String) (utf8 : Option String)
  | dir (name : String) (entries : List FsEntry)

/-- JavaScript name.startsWith for the one-character pattern ".": the
first character of the string is a dot.  Stated on the character list of
the string, which is the form the kernel can evaluate. -/
def startsWithDot (s : String) : Bool :=
  match s.data with
  | [] => false
  | c :: _ => c == ('.' : Char)

/-- Skip condition of readDirectoryFiles (sandbox.ts line 120): hidden
entries (name starts with a dot) and node_modules. -/
def skipEntry (name : String) : Bool :=
  startsWithDot name || name == "node_modules"

/-- Relative path construction (sandbox.ts line 116). -/
def relPath (pre name : String) : String :=
  if pre == "" then name else pre ++ "/" ++ name

/-- readDirectoryFiles (sandbox.ts lines 108-138): walks the tree in
entry order, skipping hidden entries and node_modules, recursing into
directories with the extended prefix, and recording each file that
decodes as UTF-8 under its relative path. -/
def readDirectoryFiles : List FsEntry → String → List (String × String)
  | [], _ => []
  | FsEntry.file name utf8 :: rest, pre =>
    if skipEntry name then readDirectoryFiles rest pre
    else
      (match utf8 with
       | some content => [(relPath pre name, content)]
       | none => []) ++ readDirectoryFiles rest pre
  | FsEntry.dir name children :: rest, pre =>
    if skipEntry name then readDirectoryFiles rest pre
    else readDirectoryFiles children (relPath pre name) ++ readDirectoryFiles rest pre

/-- Well-formedness of directory-entry names as the operating system
guarantees them: nonempty and slash-free, at every level of the tree. -/
def cleanNames : List FsEntry → Bool
  | [] => true
  | FsEntry.file name _ :: rest =>
    !name.data.contains ('/' : Char) && name ≠ "" && cleanNames rest
  | FsEntry.dir name children :: rest =>
    !name.data.contains ('/' : Char) && name ≠ "" && cleanNames children && cleanNames rest

/-- Joining of path components with the slash separator; for slash-free
components this is the inverse of splitting a path into components. -/
def joinComponents : List String → String
  | [] => ""
  | [c] => c
  | c :: rest => c ++ "/" ++ joinComponents rest

/-- Membership of a file in the tree at a given component path, with the
given decoded UTF-8 content. -/
def hasFile : List FsEntry → List String → String → Prop
  | entries, [name], content => FsEntry.file name (some content) ∈ entries
  | entries, name :: rest, content =>
    ∃ children, FsEntry.dir name children ∈ entries ∧ hasFile children rest content
  | _, [], _ => False

/-- Relative path of a component list below a prefix, mirroring how
readDirectoryFiles threads its prefix argument. -/
def relJoin (pre : String) (comps : List String) : String :=
  if pre == "" then joinComponents comps else pre ++ "/" ++ joinComponents comps

/-!
Concrete sample data used to instantiate the theorems below on closed
inputs.
-/

/-- Sample dataset example. -/
def exampleA : DatasetExample :=
  { id := "ex1", inputs := { query := "write a file", files := [] } }

/-- Sample dataset example whose processing throws. -/
def exampleBad : DatasetExample :=
  { id := "bad", inputs := { query := "explode", files := [] } }

/-- Sample captured outputs. -/
def outputsA : TrialOutputs :=
  { events := ["step_finish"]
    final_files := [("out.txt", "hello")]
    tool_calls := ["write"]
    exit_code := 0
    tokens_used := 120
    cost := 1/100
    duration_ms := 2500 }

/-- Fully populated Feedback as built by the createFeedback helper, over
the typed record (weighted_score = score * weight, normalized_score =
score). -/
def createFeedbackTyped (key : String) (score weight : ℚ) (passed : Bool) : Feedback :=
  { key := key
    score := some score
    normalized_score := score
    weight := weight
    weighted_score := score * weight
    passed := passed
    comment := none
    rubric_level := none }

/-- Sample per-trial grading oracle: trial 1 fails, later trials pass. -/
def gradeA : Nat → List Feedback :=
  fun n => [createFeedbackTyped "file_exists:out.txt" (if n == 1 then 0 else 1) 1 (decide (n ≠ 1))]

/-- Sample trial list: trial 1 fails, trial 2 passes. -/
def trialsA : List TrialResult :=
  [runSingleTrial (fun _ => outputsA) gradeA 1,
   runSingleTrial (fun _ => outputsA) gradeA 2]

/-- Sample work function for the example schedulers: the example with id
"bad" throws, every other example succeeds with a one-trial result. -/
def workA : DatasetExample → Except String ExampleResult :=
  fun ex =>
    if ex.id == "bad" then Except.error "boom"
    else Except.ok
      { example_id := ex.id
        inputs := ex.inputs
        trials := [runSingleTrial (fun _ => outputsA) gradeA 2]
        outputs := outputsA
        feedback := gradeA 2
        passed := true
        trials_passed := 1
        trials_total := 1 }

/-- Sample sandbox tree: a clean source directory, a binary file, a
hidden file and a node_modules directory. -/
def sandboxTree : List FsEntry :=
  [FsEntry.dir "src" [FsEntry.file "main.ts" (some "export default 1"),
                      FsEntry.file "logo.png" none],
   FsEntry.file ".env" (some "SECRET=1"),
   FsEntry.dir "node_modules" [FsEntry.file "package.json" (some "x")]]

/-!
Theorems.
-/

/-- C1: for every non-empty trial list aggregated by runExampleWithTrials,
the resulting ExampleResult has trials_passed = the number of passing
trials, trials_total = the trial count, and passed is trials_passed > 0
under the any criterion and trials_passed = trials_total under the all
criterion. -/
theorem aggregate_pass_criterion (ex : DatasetExample) (trials : List TrialResult)
    (crit : PassCriteria) (h : trials ≠ []) :
    ∃ r, aggregateExampleResult ex trials crit = some r
      ∧ r.trials_passed = (trials.filter (fun t => t.passed)).length
      ∧ r.trials_total = trials.length
      ∧ (crit = PassCriteria.any → (r.passed = true ↔ 0 < r.trials_passed))
      ∧ (crit = PassCriteria.all → (r.passed = true ↔ r.trials_passed = r.trials_total)) := by
  have hrep : ∃ rt, (trials.find? (fun t => t.passed)).orElse (fun _ => trials.head?) = some rt := by
    cases hf : trials.find? (fun t => t.passed) with
    | some t => exact ⟨t, rfl⟩
    | none =>
      cases trials with
      | nil => exact absurd rfl h
      | cons t0 rest => exact ⟨t0, by simp [Option.orElse, hf]⟩
  obtain ⟨rt, hrt⟩ := hrep
  simp only [aggregateExampleResult, hrt]
  refine ⟨_, rfl, rfl, rfl, ?_, ?_⟩
  · rintro rfl
    simp
  · rintro rfl
    simp

/-- C1 witness: the property evaluated on a concrete two-trial list under
the any criterion. -/
theorem aggregate_pass_criterion_witness :
    ∃ r, aggregateExampleResult exampleA trialsA PassCriteria.any = some r
      ∧ r.trials_passed = (trialsA.filter (fun t => t.passed)).length
      ∧ r.trials_total = trialsA.length
      ∧ (PassCriteria.any = PassCriteria.any → (r.passed = true ↔ 0 < r.trials_passed))
      ∧ (PassCriteria.any = PassCriteria.all → (r.passed = true ↔ r.trials_passed = r.trials_total)) :=
  aggregate_pass_criterion exampleA trialsA PassCriteria.any (List.cons_ne_nil _ _)

/-- C6 counterexample: on an empty trial list the aggregation of
runExampleWithTrials does not return a well-formed ExampleResult; the
source dereferences the undefined trials[0] and throws, modelled by
none. -/
theorem aggregate_empty_trials_cex :
    aggregateExampleResult exampleA [] PassCriteria.any = none := rfl

/-- C6 amended: for every example and criterion, the aggregation of
runExampleWithTrials on an empty trial list throws (returns none) instead
of producing a degenerate ExampleResult; the degenerate well-formed
result for errored examples is produced by the scheduler error
handling, not by the aggregator. -/
theorem aggregate_empty_trials_throws (ex : DatasetExample) (crit : PassCriteria) :
    aggregateExampleResult ex [] crit = none := rfl

/-- Decomposition of a successful linear search: the found element is the
first one satisfying the predicate. -/
theorem find?_decomp {α : Type} (p : α → Bool) :
    ∀ (l : List α) (a : α), l.find? p = some a →
      ∃ pre post, l = pre ++ a :: post ∧ p a = true ∧ ∀ u ∈ pre, p u = false := by
  intro l
  induction l with
  | nil => intro a ha; simp [List.find?] at ha
  | cons x rest ih =>
    intro a ha
    by_cases hp : p x
    · rw [List.find?_cons_of_pos _ hp] at ha
      obtain rfl : x = a := by injection ha
      exact ⟨[], rest, by simp, hp, by simp⟩
    · rw [List.find?_cons_of_neg _ (by simpa using hp)] at ha
      obtain ⟨pre, post, he, hpa, hpre⟩ := ih a ha
      refine ⟨x :: pre, post, by simp [he], hpa, ?_⟩
      intro u hu
      rcases List.mem_cons.mp hu with rfl | hu2
      · simpa using hp
      · exact hpre u hu2

/-- C9: the representative outputs snapshot of the aggregated
ExampleResult comes from the first passing trial in list (trial-number)
order, or from trials[0] when no trial passed. -/
theorem representative_outputs_rule (ex : DatasetExample) (trials : List TrialResult)
    (crit : PassCriteria) (h : trials ≠ []) :
    ∃ r, aggregateExampleResult ex trials crit = some r ∧
      ((∃ pre t post, trials = pre ++ t :: post ∧ t.passed = true
          ∧ (∀ u ∈ pre, u.passed = false) ∧ r.outputs = t.outputs)
       ∨ ((∀ t ∈ trials, t.passed = false)
          ∧ ∃ t0 rest, trials = t0 :: rest ∧ r.outputs = t0.outputs)) := by
  cases hf : trials.find? (fun t => t.passed) with
  | some t =>
    have hor : (trials.find? (fun t => t.passed)).orElse (fun _ => trials.head?) = some t := by
      simp [hf, Option.orElse]
    simp only [aggregateExampleResult, hor]
    obtain ⟨pre, post, he, hpa, hpre⟩ := find?_decomp _ trials t hf
    exact ⟨_, rfl, Or.inl ⟨pre, t, post, he, hpa, fun u hu => by simpa using hpre u hu, rfl⟩⟩
  | none =>
    have hnone : ∀ t ∈ trials, t.passed = false := by
      intro t ht
      simpa using List.find?_eq_none.mp hf t ht
    cases trials with
    | nil => exact absurd rfl h
    | cons t0 rest =>
      have hor : ((t0 :: rest).find? (fun t => t.passed)).orElse
          (fun _ => (t0 :: rest).head?) = some t0 := by
        simp [hf, Option.orElse]
      simp only [aggregateExampleResult, hor]
      exact ⟨_, rfl, Or.inr ⟨hnone, t0, rest, rfl, rfl⟩⟩

/-- C9 witness: on the concrete two-trial list whose second trial is the
first passing one. -/
theorem representative_outputs_rule_witness :
    ∃ r, aggregateExampleResult exampleA trialsA PassCriteria.any = some r ∧
      ((∃ pre t post, trialsA = pre ++ t :: post ∧ t.passed = true
          ∧ (∀ u ∈ pre, u.passed = false) ∧ r.outputs = t.outputs)
       ∨ ((∀ t ∈ trialsA, t.passed = false)
          ∧ ∃ t0 rest, trialsA = t0 :: rest ∧ r.outputs = t0.outputs)) :=
  representative_outputs_rule exampleA trialsA PassCriteria.any (List.cons_ne_nil _ _)

/-- Evaluation of an index-addressed write fold: if every index below the
array length is claimed by the order list and claimed indices are in
range, the fully folded array holds some (f i) at every index i.  The
fold is independent of the order in which the writes happen. -/
theorem foldl_set_eq_map {α : Type} (f : Nat → α) (order : List Nat) :
    ∀ (acc : List (Option α)),
      (∀ j, j < acc.length → j ∉ order → acc[j]? = some (some (f j))) →
      (∀ j ∈ order, j < acc.length) →
      order.foldl (fun rs idx => rs.set idx (some (f idx))) acc
        = (List.range acc.length).map (fun i => some (f i)) := by
  induction order with
  | nil =>
    intro acc hfull _
    simp only [List.foldl_nil]
    apply List.ext_getElem?
    intro j
    by_cases hj : j < acc.length
    · rw [hfull j hj (by simp)]
      simp [hj]
    · rw [List.getElem?_eq_none (by omega)]
      rw [List.getElem?_eq_none (by simpa using (by omega : acc.length ≤ j))]
  | cons idx rest ih =>
    intro acc hfull hlt
    simp only [List.foldl_cons]
    have hidx : idx < acc.length := hlt idx (by simp)
    have h1 : ∀ j, j < (acc.set idx (some (f idx))).length → j ∉ rest →
        (acc.set idx (some (f idx)))[j]? = some (some (f j)) := by
      intro j hj hjr
      rw [List.length_set] at hj
      rw [List.getElem?_set]
      by_cases hje : idx = j
      · subst hje
        simp [hidx]
      · simp only [if_neg hje]
        refine hfull j hj ?_
        intro hmem
        rcases List.mem_cons.mp hmem with h2 | h2
        · exact hje h2.symm
        · exact hjr h2
    have h2 : ∀ j ∈ rest, j < (acc.set idx (some (f idx))).length := by
      intro j hj
      rw [List.length_set]
      exact hlt j (by simp [hj])
    rw [ih _ h1 h2, List.length_set]

/-- Fully drained parallel trial pool: with the completion order a
permutation of the claimed indices, the result array holds the trial for
number i+1 at every index i, independently of the completion order. -/
theorem runTrialsParallel_complete (capture : Nat → TrialOutputs)
    (grade : Nat → List Feedback) (save : Option (Nat → String)) (N : Nat)
    (order : List Nat) (h : order.Perm (List.range N)) :
    runTrialsParallel capture grade save N order
      = (List.range N).map
          (fun i => some (withTranscript save (i + 1) (runSingleTrial capture grade (i + 1)))) := by
  have hmem : ∀ j, j ∈ order ↔ j < N := by
    intro j
    rw [h.mem_iff, List.mem_range]
  have hres := foldl_set_eq_map
    (fun idx => withTranscript save (idx + 1) (runSingleTrial capture grade (idx + 1)))
    order (List.replicate N none)
    (by
      intro j hj hjo
      rw [List.length_replicate] at hj
      exact absurd ((hmem j).mpr hj) hjo)
    (by
      intro j hj
      rw [List.length_replicate]
      exact (hmem j).mp hj)
  rw [List.length_replicate] at hres
  simpa [runTrialsParallel] using hres

/-- Transcript recording does not change the trial number. -/
theorem withTranscript_trial_number (save : Option (Nat → String)) (k : Nat)
    (tr : TrialResult) : (withTranscript save k tr).trial_number = tr.trial_number := by
  cases save <;> rfl

/-- C2: both trial schedulers return exactly N trials whose trial_number
at index i is i+1; for the parallel pool this holds for every completion
order that drains the pool (any permutation of the claimed indices). -/
theorem trial_number_sequence (capture : Nat → TrialOutputs)
    (grade : Nat → List Feedback) (save : Option (Nat → String)) (N : Nat)
    (order : List Nat) (h : order.Perm (List.range N)) :
    (runTrialsSequential capture grade save N).length = N
    ∧ (∀ i, i < N → ∃ t, (runTrialsSequential capture grade save N)[i]? = some t
        ∧ t.trial_number = i + 1)
    ∧ (runTrialsParallel capture grade save N order).length = N
    ∧ (∀ i, i < N → ∃ t, (runTrialsParallel capture grade save N order)[i]? = some (some t)
        ∧ t.trial_number = i + 1) := by
  have hpar := runTrialsParallel_complete capture grade save N order h
  refine ⟨by simp [runTrialsSequential], ?_, ?_, ?_⟩
  · intro i hi
    refine ⟨withTranscript save (i + 1) (runSingleTrial capture grade (i + 1)), ?_, ?_⟩
    · simp [runTrialsSequential, hi]
    · rw [withTranscript_trial_number]
      rfl
  · rw [hpar]
    simp
  · intro i hi
    refine ⟨withTranscript save (i + 1) (runSingleTrial capture grade (i + 1)), ?_, ?_⟩
    · rw [hpar]
      simp [hi]
    · rw [withTranscript_trial_number]
      rfl

/-- C2 witness: two trials, parallel completion order reversed. -/
theorem trial_number_sequence_witness :
    (runTrialsSequential (fun _ => outputsA) gradeA none 2).length = 2
    ∧ (∀ i, i < 2 → ∃ t, (runTrialsSequential (fun _ => outputsA) gradeA none 2)[i]? = some t
        ∧ t.trial_number = i + 1)
    ∧ (runTrialsParallel (fun _ => outputsA) gradeA none 2 [1, 0]).length = 2
    ∧ (∀ i, i < 2 → ∃ t, (runTrialsParallel (fun _ => outputsA) gradeA none 2 [1, 0])[i]? = some (some t)
        ∧ t.trial_number = i + 1) :=
  trial_number_sequence (fun _ => outputsA) gradeA none 2 [1, 0] (by decide)

/-- Fold functions that agree on the elements of the list produce the
same fold. -/
theorem foldl_ext_mem {α β : Type} (f g : β → α → β) (l : List α)
    (H : ∀ b, ∀ a ∈ l, f b a = g b a) : ∀ b, l.foldl f b = l.foldl g b := by
  induction l with
  | nil => intro b; rfl
  | cons x xs ih =>
    intro b
    simp only [List.foldl_cons]
    rw [H b x (by simp)]
    exact ih (fun b a ha => H b a (by simp [ha])) _

/-- Sequential example scheduler under a non-abort policy: every example
contributes exactly its outcome, in dataset order, and no error escapes. -/
theorem runExamplesSequential_ok (work : DatasetExample → Except String ExampleResult)
    (policy : ErrorPolicy) (hp : policy ≠ ErrorPolicy.abort) :
    ∀ examples, runExamplesSequential work policy examples
      = Except.ok (examples.map (exampleOutcome work)) := by
  intro examples
  induction examples with
  | nil => rfl
  | cons ex rest ih =>
    cases hw : work ex with
    | ok r =>
      simp [runExamplesSequential, hw, ih, exampleOutcome, Except.map]
    | error err =>
      have hcer : createErrorResult ex err policy = some (syntheticErrorResult ex err) := by
        cases policy with
        | abort => exact absurd rfl hp
        | cont => rfl
        | retryPolicy => rfl
      simp [runExamplesSequential, hw, hcer, ih, exampleOutcome, Except.map]

/-- Fully drained parallel example pool under the continue policy: the
result array holds the outcome of examples[i] at every index i,
independently of the completion order. -/
theorem runExamplesParallel_complete (work : DatasetExample → Except String ExampleResult)
    (examples : List DatasetExample) (order : List Nat)
    (h : order.Perm (List.range examples.length)) :
    runExamplesParallel work examples order
      = (examples.map (exampleOutcome work)).map some := by
  have hmem : ∀ j, j ∈ order ↔ j < examples.length := by
    intro j
    rw [h.mem_iff, List.mem_range]
  have hstep : ∀ (rs : List (Option ExampleResult)), ∀ idx ∈ order,
      (match examples[idx]? with
       | some ex => rs.set idx (some (exampleOutcome work ex))
       | none => rs)
      = rs.set idx (some (exampleOutcome work (examples.getD idx exampleA))) := by
    intro rs idx hidx
    have hlt : idx < examples.length := (hmem idx).mp hidx
    have hex : examples[idx]? = some examples[idx] := List.getElem?_eq_getElem hlt
    rw [hex]
    have hgd : examples.getD idx exampleA = examples[idx] := by
      rw [List.getD_eq_getElem?_getD, hex]
      rfl
    rw [hgd]
  have hfold := foldl_ext_mem
    (fun rs idx =>
      match examples[idx]? with
      | some ex => rs.set idx (some (exampleOutcome work ex))
      | none => rs)
    (fun rs idx => rs.set idx (some (exampleOutcome work (examples.getD idx exampleA))))
    order hstep (List.replicate examples.length none)
  have hres := foldl_set_eq_map
    (fun idx => exampleOutcome work (examples.getD idx exampleA))
    order (List.replicate examples.length none)
    (by
      intro j hj hjo
      rw [List.length_replicate] at hj
      exact absurd ((hmem j).mpr hj) hjo)
    (by
      intro j hj
      rw [List.length_replicate]
      exact (hmem j).mp hj)
  rw [List.length_replicate] at hres
  have : runExamplesParallel work examples order
      = (List.range examples.length).map
          (fun i => some (exampleOutcome work (examples.getD i exampleA))) := by
    unfold runExamplesParallel
    rw [hfold]
    simpa using hres
  rw [this]
  apply List.ext_getElem?
  intro j
  by_cases hj : j < examples.length
  · have hex : examples[j]? = some examples[j] := List.getElem?_eq_getElem hj
    have hgd : examples.getD j exampleA = examples[j] := by
      rw [List.getD_eq_getElem?_getD, hex]
      rfl
    simp [hj, hgd, hex]
  · rw [List.getElem?_eq_none (by simpa using (by omega : examples.length ≤ j))]
    rw [List.getElem?_eq_none (by simpa using (by omega : examples.length ≤ j))]

/-- C3: with a deterministic per-example work function and the continue
error policy, the parallel example scheduler (any pool width, any
completion order that drains the queue) and the sequential scheduler
produce the same ExampleResult at every index, in original dataset
order. -/
theorem parallel_equals_sequential (work : DatasetExample → Except String ExampleResult)
    (examples : List DatasetExample) (order : List Nat)
    (h : order.Perm (List.range examples.length)) :
    runExamplesParallel work examples order
      = (examples.map (exampleOutcome work)).map some
    ∧ runExamplesSequential work ErrorPolicy.cont examples
      = Except.ok (examples.map (exampleOutcome work)) :=
  ⟨runExamplesParallel_complete work examples order h,
   runExamplesSequential_ok work ErrorPolicy.cont (by simp) examples⟩

/-- C3 witness: two examples, parallel completion in reverse order. -/
theorem parallel_equals_sequential_witness :
    runExamplesParallel workA [exampleA, exampleBad] [1, 0]
      = ([exampleA, exampleBad].map (exampleOutcome workA)).map some
    ∧ runExamplesSequential workA ErrorPolicy.cont [exampleA, exampleBad]
      = Except.ok ([exampleA, exampleBad].map (exampleOutcome workA)) :=
  parallel_equals_sequential workA [exampleA, exampleBad] [1, 0] (by decide)

/-- Abort policy propagation: once the scheduler reaches an example whose
work throws, the error escapes runExamplesSequential. -/
theorem runExamplesSequential_abort_propagates
    (work : DatasetExample → Except String ExampleResult) (e : DatasetExample)
    (msg : String) (hw : work e = Except.error msg) :
    ∀ pre post, (∀ x ∈ pre, ∃ r, work x = Except.ok r) →
      runExamplesSequential work ErrorPolicy.abort (pre ++ e :: post) = Except.error msg := by
  intro pre
  induction pre with
  | nil =>
    intro post _
    simp [runExamplesSequential, hw, createErrorResult]
  | cons x xs ih =>
    intro post hpre
    obtain ⟨r, hr⟩ := hpre x (by simp)
    have hih := ih post (fun y hy => hpre y (by simp [hy]))
    simp [runExamplesSequential, hr, hih, Except.map]

/-- C7: a thrown example becomes, under the continue (or retry) policy, a
synthetic ExampleResult that is failed, has one synthetic failed trial
(trials_total = 1, trials_passed = 0) carrying exactly one Feedback entry
with key "error", score 0, passed false and the stringified error as
comment; under the abort policy the error propagates out of the
scheduler instead. -/
theorem error_example_conversion (work : DatasetExample → Except String ExampleResult)
    (e : DatasetExample) (msg : String) (pre post : List DatasetExample)
    (hw : work e = Except.error msg)
    (hpre : ∀ x ∈ pre, ∃ r, work x = Except.ok r) :
    createErrorResult e msg ErrorPolicy.cont = some (syntheticErrorResult e msg)
    ∧ createErrorResult e msg ErrorPolicy.retryPolicy = some (syntheticErrorResult e msg)
    ∧ (syntheticErrorResult e msg).passed = false
    ∧ (syntheticErrorResult e msg).trials_total = 1
    ∧ (syntheticErrorResult e msg).trials_passed = 0
    ∧ (syntheticErrorResult e msg).trials = [emptyTrial msg]
    ∧ (emptyTrial msg).passed = false
    ∧ (emptyTrial msg).feedback = [errorFeedback msg]
    ∧ (errorFeedback msg).key = "error"
    ∧ (errorFeedback msg).score = some 0
    ∧ (errorFeedback msg).passed = false
    ∧ (errorFeedback msg).comment = some msg
    ∧ exampleOutcome work e = syntheticErrorResult e msg
    ∧ runExamplesSequential work ErrorPolicy.cont (pre ++ e :: post)
        = Except.ok ((pre ++ e :: post).map (exampleOutcome work))
    ∧ runExamplesSequential work ErrorPolicy.abort (pre ++ e :: post) = Except.error msg := by
  refine ⟨rfl, rfl, rfl, rfl, rfl, rfl, rfl, rfl, rfl, rfl, rfl, rfl, ?_, ?_, ?_⟩
  · simp [exampleOutcome, hw]
  · exact runExamplesSequential_ok work ErrorPolicy.cont (by simp) _
  · exact runExamplesSequential_abort_propagates work e msg hw pre post hpre

/-- C7 witness: the failing example exampleBad after one succeeding
example, projected to the continue-policy result and the abort-policy
propagation. -/
theorem error_example_conversion_witness :
    createErrorResult exampleBad "boom" ErrorPolicy.cont
      = some (syntheticErrorResult exampleBad "boom")
    ∧ runExamplesSequential workA ErrorPolicy.cont ([exampleA] ++ exampleBad :: [])
        = Except.ok (([exampleA] ++ exampleBad :: []).map (exampleOutcome workA))
    ∧ runExamplesSequential workA ErrorPolicy.abort ([exampleA] ++ exampleBad :: [])
        = Except.error "boom" := by
  have h := error_example_conversion workA exampleBad "boom" [exampleA] [] rfl
    (by
      intro x hx
      have hx2 : x = exampleA := by simpa using hx
      subst hx2
      exact ⟨_, rfl⟩)
  obtain ⟨h1, -, -, -, -, -, -, -, -, -, -, -, -, h14, h15⟩ := h
  exact ⟨h1, h14, h15⟩

/-- C8: the experiment summary satisfies passed + failed = total_examples
and pass_rate = passed / total_examples for nonempty result lists, and on
the empty list every count, the pass rate and the average score are zero,
with no division performed. -/
theorem summary_invariants (results : List ExampleResult) :
    (calculateSummary results).passed + (calculateSummary results).failed
        = (calculateSummary results).total_examples
    ∧ (results ≠ [] → (calculateSummary results).pass_rate
        = ((calculateSummary results).passed : ℚ) / ((calculateSummary results).total_examples : ℚ))
    ∧ (calculateSummary []).total_examples = 0
    ∧ (calculateSummary []).passed = 0
    ∧ (calculateSummary []).failed = 0
    ∧ (calculateSummary []).pass_rate = 0
    ∧ (calculateSummary []).avg_score = 0 := by
  have hle : (results.filter (fun r => r.passed)).length ≤ results.length :=
    List.length_filter_le _ _
  refine ⟨?_, ?_, rfl, rfl, rfl, rfl, rfl⟩
  · simp only [calculateSummary]
    omega
  · intro hne
    have hpos : 0 < results.length := List.length_pos.mpr hne
    simp only [calculateSummary]
    rw [if_pos hpos]

/-- C8 witness: the invariants evaluated on a one-element result list,
with the nonemptiness hypothesis of the pass-rate equation discharged. -/
theorem summary_invariants_witness :
    (calculateSummary [syntheticErrorResult exampleA "e1"]).passed
        + (calculateSummary [syntheticErrorResult exampleA "e1"]).failed
        = (calculateSummary [syntheticErrorResult exampleA "e1"]).total_examples
    ∧ (calculateSummary [syntheticErrorResult exampleA "e1"]).pass_rate
        = ((calculateSummary [syntheticErrorResult exampleA "e1"]).passed : ℚ)
            / ((calculateSummary [syntheticErrorResult exampleA "e1"]).total_examples : ℚ) :=
  ⟨(summary_invariants [syntheticErrorResult exampleA "e1"]).1,
   (summary_invariants [syntheticErrorResult exampleA "e1"]).2.1 (List.cons_ne_nil _ _)⟩

/-- C5: for result lists in which every example ran at least one trial
(which is the case for every ExampleResult the pipeline produces:
aggregation rejects empty trial lists and the synthetic error result has
one trial), pass@k is at least pass^k. -/
theorem pass_at_k_ge_pass_all_k (results : List ExampleResult)
    (h : ∀ r ∈ results, 0 < r.trials_total) :
    (calculateTrialMetrics results).pass_all_k ≤ (calculateTrialMetrics results).pass_at_k := by
  cases results with
  | nil => simp [calculateTrialMetrics]
  | cons r0 rest =>
    simp only [calculateTrialMetrics]
    have hmono : ((r0 :: rest).filter (fun r => r.trials_passed == r.trials_total)).length
        ≤ ((r0 :: rest).filter (fun r => decide (0 < r.trials_passed))).length := by
      rw [← List.countP_eq_length_filter, ← List.countP_eq_length_filter]
      apply List.countP_mono_left
      intro r hr hbeq
      have heq : r.trials_passed = r.trials_total := by simpa using hbeq
      have hpos : 0 < r.trials_passed := heq ▸ h r hr
      simpa using hpos
    have hcast : (((r0 :: rest).filter (fun r => r.trials_passed == r.trials_total)).length : ℚ)
        ≤ (((r0 :: rest).filter (fun r => decide (0 < r.trials_passed))).length : ℚ) :=
      Nat.cast_le.mpr hmono
    gcongr

/-- C5 witness: a two-element result list with one fully passing and one
fully failing example. -/
theorem pass_at_k_ge_pass_all_k_witness :
    (calculateTrialMetrics [syntheticErrorResult exampleA "e1",
        syntheticErrorResult exampleBad "e2"]).pass_all_k
      ≤ (calculateTrialMetrics [syntheticErrorResult exampleA "e1",
          syntheticErrorResult exampleBad "e2"]).pass_at_k :=
  pass_at_k_ge_pass_all_k _ (by
    intro r hr
    rcases List.mem_cons.mp hr with rfl | hr2
    · exact Nat.zero_lt_one
    · rcases List.mem_cons.mp hr2 with rfl | hr3
      · exact Nat.zero_lt_one
      · cases hr3)

/-- C4 (divergence witness): the Feedback objects constructed by the
shipped code-assertion grader (evaluators/code.ts) and by the LLM judge
(evaluators/llm-judge.ts evaluateCriterion) omit normalized_score, weight
and weighted_score, although types.ts declares them required, so the
invariant weighted_score == normalized_score * weight is false on them;
the createFeedback helper of the revised evaluator, the synthetic error
Feedback and the cross-trial aggregator (aggregateTrialFeedback_invariant
below) do satisfy the invariant. -/
theorem feedback_invariant_status :
    feedbackInvariantJS (evaluateFileExists "out.txt" false) = false
    ∧ feedbackInvariantJS (evaluateFileExists "out.txt" true) = false
    ∧ feedbackInvariantJS (evaluateCriterion "code compiles" (some (1/2)) true (some "ok")) = false
    ∧ feedbackInvariantJS (evaluateCriterion "code compiles" (some 0) false
        (some "LLM judge error: x")) = false
    ∧ feedbackInvariantJS (createFeedback "file_exists:out.txt" 1 2 true none) = true
    ∧ feedbackInvariant (errorFeedback "boom") = true := by
  refine ⟨by decide, by decide, by decide, by decide, ?_, ?_⟩
  · simp [feedbackInvariantJS, createFeedback]
  · simp [feedbackInvariant, errorFeedback]

/-- Every Feedback produced by the cross-trial aggregator in its
multi-trial branch carries weighted_score = normalized_score * weight by
construction. -/
theorem aggregateTrialFeedback_invariant (t1 t2 : TrialResult) (rest : List TrialResult) :
    ∀ f ∈ aggregateTrialFeedback (t1 :: t2 :: rest), feedbackInvariant f = true := by
  intro f hf
  simp only [aggregateTrialFeedback] at hf
  obtain ⟨key, hkey, rfl⟩ := List.mem_map.mp hf
  simp [feedbackInvariant]

/-- Appending to a nonempty string keeps it nonempty. -/
theorem str_append_ne_empty (s t : String) (h : s ≠ "") : s ++ t ≠ "" := by
  intro he
  apply h
  have hd := congrArg String.data he
  rw [String.data_append] at hd
  have hnil : s.data = [] := (List.append_eq_nil.mp (by simpa using hd)).1
  have hdata : ("" : String).data = [] := rfl
  exact String.ext (hnil.trans hdata.symm)

/-- Pushing one path component below the prefix agrees with consing it to
the component list. -/
theorem relJoin_cons (pre name : String) (comps : List String)
    (hne : comps ≠ []) (hname : name ≠ "") :
    relJoin (relPath pre name) comps = relJoin pre (name :: comps) := by
  obtain ⟨c, cs, rfl⟩ : ∃ c cs, comps = c :: cs := by
    cases comps with
    | nil => exact absurd rfl hne
    | cons c cs => exact ⟨c, cs, rfl⟩
  by_cases hpre : pre = ""
  · subst hpre
    have h1 : relPath "" name = name := by simp [relPath]
    have hb : (name == "") = false := beq_eq_false_iff_ne.mpr hname
    rw [h1]
    simp [relJoin, hb, joinComponents]
  · have hb2 : (pre == "") = false := beq_eq_false_iff_ne.mpr hpre
    have h1 : relPath pre name = pre ++ "/" ++ name := by simp [relPath, hb2]
    have hb3 : ((pre ++ "/" ++ name) == "") = false :=
      beq_eq_false_iff_ne.mpr (str_append_ne_empty _ _ (str_append_ne_empty _ _ hpre))
    rw [h1]
    unfold relJoin
    rw [if_neg (by simp [hb3]), if_neg (by simp [hb2])]
    have hj : joinComponents (name :: c :: cs) = name ++ "/" ++ joinComponents (c :: cs) := rfl
    rw [hj]
    simp [String.append_assoc]

/-- A file reachable in a tree is still reachable after consing another
entry in front. -/
theorem hasFile_cons (e : FsEntry) (entries : List FsEntry) (comps : List String)
    (c : String) (h : hasFile entries comps c) : hasFile (e :: entries) comps c := by
  match comps with
  | [] => exact absurd h (by simp [hasFile])
  | [n] => exact List.mem_cons_of_mem _ h
  | n :: m :: rest =>
    obtain ⟨ch, hm, hf⟩ := h
    exact ⟨ch, List.mem_cons_of_mem _ hm, hf⟩

/-- A file reachable in a directory is reachable from the directory entry
itself under the extended component path. -/
theorem hasFile_dir_cons (name : String) (children entries : List FsEntry)
    (comps : List String) (c : String) (h : hasFile children comps c)
    (hne : comps ≠ []) :
    hasFile (FsEntry.dir name children :: entries) (name :: comps) c := by
  match comps, hne with
  | c1 :: cs, _ => exact ⟨children, List.mem_cons_self _ _, h⟩

/-- Unfolding equation of readDirectoryFiles on the empty entry list. -/
theorem readDirectoryFiles_nil (pre : String) : readDirectoryFiles [] pre = [] := by
  rw [readDirectoryFiles.eq_def]

/-- Unfolding equation of readDirectoryFiles on a leading file entry. -/
theorem readDirectoryFiles_file (name : String) (utf8 : Option String)
    (rest : List FsEntry) (pre : String) :
    readDirectoryFiles (FsEntry.file name utf8 :: rest) pre
      = if skipEntry name = true then readDirectoryFiles rest pre
        else (match utf8 with
              | some content => [(relPath pre name, content)]
              | none => []) ++ readDirectoryFiles rest pre := by
  rw [readDirectoryFiles.eq_def]

/-- Unfolding equation of readDirectoryFiles on a leading directory
entry. -/
theorem readDirectoryFiles_dir (name : String) (children rest : List FsEntry)
    (pre : String) :
    readDirectoryFiles (FsEntry.dir name children :: rest) pre
      = if skipEntry name = true then readDirectoryFiles rest pre
        else readDirectoryFiles children (relPath pre name)
              ++ readDirectoryFiles rest pre := by
  rw [readDirectoryFiles.eq_def]

/-- Generalisation of the C10 snapshot property over the running prefix:
every entry of the snapshot decomposes into nonempty, dot-free,
non-node_modules, slash-free, nonempty components leading to a file whose
UTF-8 decoding is the recorded content. -/
theorem readDirectoryFiles_mem_aux (entries : List FsEntry) (pre : String) :
    ∀ p c, cleanNames entries = true →
      (p, c) ∈ readDirectoryFiles entries pre →
      ∃ comps, comps ≠ [] ∧ p = relJoin pre comps
        ∧ (∀ comp ∈ comps, startsWithDot comp = false ∧ comp ≠ "node_modules"
            ∧ comp.data.contains ('/' : Char) = false ∧ comp ≠ "")
        ∧ hasFile entries comps c := by
  induction entries, pre using readDirectoryFiles.induct with
  | case1 pre =>
    intro p c _ hmem
    rw [readDirectoryFiles_nil] at hmem
    simp at hmem
  | case2 name utf8 rest pre hskip ih =>
    intro p c hok hmem
    rw [readDirectoryFiles_file, if_pos hskip] at hmem
    have hok2 : cleanNames rest = true := by
      simp only [cleanNames, Bool.and_eq_true] at hok
      exact hok.2
    obtain ⟨comps, h1, h2, h3, h4⟩ := ih p c hok2 hmem
    exact ⟨comps, h1, h2, h3, hasFile_cons _ _ _ _ h4⟩
  | case3 name utf8 rest pre hskip ih =>
    intro p c hok hmem
    have hskipf : skipEntry name = false := by
      cases hsk : skipEntry name
      · rfl
      · exact absurd hsk hskip
    have hsw : startsWithDot name = false ∧ (name == "node_modules") = false := by
      simpa [skipEntry, Bool.or_eq_false_iff] using hskipf
    simp only [cleanNames, Bool.and_eq_true, decide_eq_true_eq, Bool.not_eq_true'] at hok
    obtain ⟨⟨hslash, hnempty⟩, hok2⟩ := hok
    rw [readDirectoryFiles_file, if_neg (by simp [hskipf])] at hmem
    rcases List.mem_append.mp hmem with hmem1 | hmem2
    · cases utf8 with
      | none => simp at hmem1
      | some content =>
        obtain ⟨hp, hc⟩ : p = relPath pre name ∧ c = content := by
          simpa [Prod.ext_iff] using hmem1
        subst hc
        refine ⟨[name], by simp, ?_, ?_, ?_⟩
        · rw [hp]
          rfl
        · intro comp hcomp
          have hcn : comp = name := by simpa using hcomp
          subst hcn
          exact ⟨hsw.1, beq_eq_false_iff_ne.mp hsw.2, hslash, hnempty⟩
        · exact List.mem_cons_self _ _
    · obtain ⟨comps, h1, h2, h3, h4⟩ := ih p c hok2 hmem2
      exact ⟨comps, h1, h2, h3, hasFile_cons _ _ _ _ h4⟩
  | case4 name children rest pre hskip ih =>
    intro p c hok hmem
    rw [readDirectoryFiles_dir, if_pos hskip] at hmem
    have hok2 : cleanNames rest = true := by
      simp only [cleanNames, Bool.and_eq_true] at hok
      exact hok.2
    obtain ⟨comps, h1, h2, h3, h4⟩ := ih p c hok2 hmem
    exact ⟨comps, h1, h2, h3, hasFile_cons _ _ _ _ h4⟩
  | case5 name children rest pre hskip ih1 ih2 =>
    intro p c hok hmem
    have hskipf : skipEntry name = false := by
      cases hsk : skipEntry name
      · rfl
      · exact absurd hsk hskip
    have hsw : startsWithDot name = false ∧ (name == "node_modules") = false := by
      simpa [skipEntry, Bool.or_eq_false_iff] using hskipf
    simp only [cleanNames, Bool.and_eq_true, decide_eq_true_eq, Bool.not_eq_true'] at hok
    obtain ⟨⟨⟨hslash, hnempty⟩, hokc⟩, hok2⟩ := hok
    rw [readDirectoryFiles_dir, if_neg (by simp [hskipf])] at hmem
    rcases List.mem_append.mp hmem with hmem1 | hmem2
    · obtain ⟨comps, h1, h2, h3, h4⟩ := ih1 p c hokc hmem1
      refine ⟨name :: comps, by simp, ?_, ?_,
        hasFile_dir_cons name children rest comps c h4 h1⟩
      · rw [h2]
        exact relJoin_cons pre name comps h1 hnempty
      · intro comp hcomp
        rcases List.mem_cons.mp hcomp with rfl | hcmem
        · exact ⟨hsw.1, beq_eq_false_iff_ne.mp hsw.2, hslash, hnempty⟩
        · exact h3 comp hcmem
    · obtain ⟨comps, h1, h2, h3, h4⟩ := ih2 p c hok2 hmem2
      exact ⟨comps, h1, h2, h3, hasFile_cons _ _ _ _ h4⟩

/-- C10: every entry recorded in the final-files snapshot taken by
readDirectoryFiles lies at a path whose components are all free of a
leading dot and all differ from node_modules, and corresponds to a file
whose content decoded as UTF-8 (files that fail to decode are omitted);
hence hidden files, node_modules contents and non-UTF-8 files are
invisible in the snapshot handed to the LLM judge and to reporting. -/
theorem readDirectoryFiles_snapshot_clean (entries : List FsEntry) (p c : String)
    (hok : cleanNames entries = true)
    (hmem : (p, c) ∈ readDirectoryFiles entries "") :
    ∃ comps, comps ≠ [] ∧ p = joinComponents comps
      ∧ (∀ comp ∈ comps, startsWithDot comp = false ∧ comp ≠ "node_modules"
          ∧ comp.data.contains ('/' : Char) = false ∧ comp ≠ "")
      ∧ hasFile entries comps c := by
  obtain ⟨comps, h1, h2, h3, h4⟩ := readDirectoryFiles_mem_aux entries "" p c hok hmem
  exact ⟨comps, h1, by simpa [relJoin] using h2, h3, h4⟩

/-- C10 witness: the concrete sandbox tree, whose snapshot contains
exactly the one clean UTF-8 file src/main.ts. -/
theorem readDirectoryFiles_snapshot_clean_witness :
    cleanNames sandboxTree = true
    ∧ ("src/main.ts", "export default 1") ∈ readDirectoryFiles sandboxTree ""
    ∧ ∃ comps, comps ≠ [] ∧ "src/main.ts" = joinComponents comps
        ∧ (∀ comp ∈ comps, startsWithDot comp = false ∧ comp ≠ "node_modules"
            ∧ comp.data.contains ('/' : Char) = false ∧ comp ≠ "")
        ∧ hasFile sandboxTree comps "export default 1" := by
  have hclean : cleanNames sandboxTree = true := by
    simp [cleanNames, sandboxTree]
  have hmem : ("src/main.ts", "export default 1") ∈ readDirectoryFiles sandboxTree "" := by
    simp [readDirectoryFiles, sandboxTree, skipEntry, startsWithDot, relPath]
  exact ⟨hclean, hmem,
    readDirectoryFiles_snapshot_clean sandboxTree "src/main.ts" "export default 1" hclean hmem⟩

end OpencodeEvals
